import Mathlib

/-!
Verification of `scripts/update-appcast.py` from the Orbit repository.

The script edits an RSS-like "appcast" XML document: it parses (or
synthesizes) the feed, locates the single `channel` element, removes an
existing `item` carrying the incoming version (dedup-by-replace), builds a
fresh `item`, inserts it in front of the trailing block of items, trims the
item list to a retention limit, and writes the result back.

We embed the document tree shallowly: an element is a tag, an attribute
list, optional text, and a list of children — exactly the data
`xml.etree.ElementTree` exposes that the script touches.  The publication
date (`datetime.now`) is modelled as an explicit `now : String` parameter,
since it is the one non-deterministic input of `create_item`.  Python's
`max_items` is modelled as a `Nat` (the retention count).  Removal via
`channel.remove(obj)` uses object identity in Python; we model it
positionally, which is the same thing for the objects the script removes.
-/

namespace Orbit

/-- An XML element as seen through `xml.etree.ElementTree`: tag, attributes
(in document order), optional text, children. -/
inductive XElem : Type where
  | mk : String → List (String × String) → Option String → List XElem → XElem

def XElem.tag : XElem → String
  | .mk t _ _ _ => t

def XElem.attrs : XElem → List (String × String)
  | .mk _ a _ _ => a

def XElem.text : XElem → Option String
  | .mk _ _ x _ => x

def XElem.children : XElem → List XElem
  | .mk _ _ _ c => c

/-- The Sparkle XML namespace URI (`SPARKLE_NS` in the script). -/
def SPARKLE_NS : String := "http://www.andymatuschak.org/xml-namespaces/sparkle"

/-- ElementTree's fully-qualified tag/attribute name for the Sparkle
namespace: `"{" ++ SPARKLE_NS ++ "}" ++ name`. -/
def sparkleName (name : String) : String := "\x7b" ++ SPARKLE_NS ++ "\x7d" ++ name

/-- `elem.find(tag)`: first direct child with the given tag. -/
def findChild (tag : String) (e : XElem) : Option XElem :=
  e.children.find? (fun c => c.tag == tag)

/-- `elem.findall(tag)` applied to a child list: all entries with the given
tag, in document order. -/
def findallTag (tag : String) (l : List XElem) : List XElem :=
  l.filter (fun c => c.tag == tag)

/-- `elem.get(key)`: attribute lookup. -/
def getAttr (key : String) (e : XElem) : Option String :=
  (e.attrs.find? (fun p => p.1 == key)).map (·.2)

/-- The item children of a child list (`channel.findall("item")`). -/
def itemsOf (l : List XElem) : List XElem := findallTag "item" l

/-- `create_appcast_template()` after `ET.fromstring`: the default document
with the fixed channel metadata and no items.  (Inter-tag whitespace text is
irrelevant to every operation the script performs and is modelled as
`none`.) -/
def create_appcast_template : XElem :=
  XElem.mk "rss" [("version", "2.0")] none
    [XElem.mk "channel" [] none
      [XElem.mk "title" [] (some "Orbit Updates") [],
       XElem.mk "link" [] (some "https://github.com/thirteen37/Orbit") [],
       XElem.mk "description" [] (some "Most recent updates to Orbit") [],
       XElem.mk "language" [] (some "en") []]]

/-- `parse_appcast(path)`: the stored document when the file exists
(`some root`), the synthesized template when it does not (`none`). -/
def parse_appcast (stored : Option XElem) : XElem :=
  match stored with
  | some root => root
  | none => create_appcast_template

/-- Python's `str.startswith(pre)`: the characters of `pre` lead the
string.  (Defined on the character lists so that it evaluates by
reduction; `String.startsWith` of the library is extensionally the same
test but does not reduce in the kernel.) -/
def pyStartswith (s pre : String) : Bool := pre.data.isPrefixOf s.data

/-- Python truthiness of the optional `release_notes` string:
`None` and `""` are falsy. -/
def pyTruthy (o : Option String) : Bool :=
  match o with
  | none => false
  | some s => s != ""

/-- The optional release-notes children produced inside `create_item`:
a `sparkle:releaseNotesLink` element when the notes start with `"http"`,
otherwise an inline `description` element; nothing when the notes are
falsy. -/
def notesChildren (release_notes : Option String) : List XElem :=
  if pyTruthy release_notes then
    if pyStartswith (release_notes.getD "") "http" then
      [XElem.mk (sparkleName "releaseNotesLink") [] (some (release_notes.getD "")) []]
    else
      [XElem.mk "description" [] (some (release_notes.getD "")) []]
  else []

/-- The `enclosure` element built inside `create_item`. -/
def enclosureElem (version signature url : String) (length : Int) : XElem :=
  XElem.mk "enclosure"
    [("url", url),
     ("length", toString length),
     ("type", "application/octet-stream"),
     (sparkleName "version", version),
     (sparkleName "shortVersionString", version),
     (sparkleName "edSignature", signature)]
    none []

/-- `create_item(...)`.  `now` is the formatted current UTC time the script
puts into `pubDate`; it is passed explicitly because `datetime.now` is not a
function of the other arguments. -/
def create_item (now : String) (version signature url : String) (length : Int)
    (min_system_version : String := "14.0")
    (release_notes : Option String := none) : XElem :=
  XElem.mk "item" [] none
    ([XElem.mk "title" [] (some ("Version " ++ version)) [],
      XElem.mk "pubDate" [] (some now) []]
     ++ notesChildren release_notes
     ++ [enclosureElem version signature url length,
         XElem.mk (sparkleName "minimumSystemVersion") [] (some min_system_version) []])

/-- The dedup test of the scan in `update_appcast`: the item has an
`enclosure` child whose `sparkle:version` attribute equals the incoming
version (a `None` attribute never equals a string). -/
def matchesVersion (version : String) (item : XElem) : Bool :=
  match findChild "enclosure" item with
  | some enclosure => getAttr (sparkleName "version") enclosure == some version
  | none => false

/-- The dedup scan: walk the children in document order and remove the first
`item` child matching the incoming version, stopping there (`break`); items
without a matching enclosure are skipped and the scan continues. -/
def removeFirstMatch (version : String) : List XElem → List XElem
  | [] => []
  | c :: cs =>
      if c.tag == "item" && matchesVersion version c then cs
      else c :: removeFirstMatch version cs

/-- The insertion-position loop of `update_appcast`: index of the first
`item` child, or the length of the list when there is none. -/
def insertPos : List XElem → Nat
  | [] => 0
  | c :: cs => if c.tag == "item" then 0 else insertPos cs + 1

/-- `list.insert(n, x)` of Python on a child list (for `n ≤ length`). -/
def insertAt (n : Nat) (x : XElem) (l : List XElem) : List XElem :=
  l.take n ++ x :: l.drop n

/-- Removal of the item children with item-index `≥ k` (the loop
`for item in items[max_items:]: channel.remove(item)`); non-item children
and the first `k` items are kept. -/
def dropItemsAfter (k : Nat) : List XElem → List XElem
  | [] => []
  | c :: cs =>
      if c.tag == "item" then
        match k with
        | 0 => dropItemsAfter 0 cs
        | j + 1 => c :: dropItemsAfter j cs
      else c :: dropItemsAfter k cs

/-- The retention step of `update_appcast`: trim only when the item count
exceeds `max_items`. -/
def trimItems (max_items : Nat) (l : List XElem) : List XElem :=
  if (itemsOf l).length > max_items then dropItemsAfter max_items l else l

/-- The whole child-list transformation before trimming: dedup scan, then
insertion of the new item at the front of the item block. -/
def preTrimChildren (newItem : XElem) (version : String) (l : List XElem) : List XElem :=
  insertAt (insertPos (removeFirstMatch version l)) newItem (removeFirstMatch version l)

/-- Dedup + insert + trim on the channel's children. -/
def mergeChildren (max_items : Nat) (newItem : XElem) (version : String)
    (l : List XElem) : List XElem :=
  trimItems max_items (preTrimChildren newItem version l)

/-- Replace the first child with the given tag (the in-place mutation of the
`channel` object seen from `root`). -/
def replaceFirst (tag : String) (new : XElem) : List XElem → List XElem
  | [] => []
  | c :: cs => if c.tag == tag then new :: cs else c :: replaceFirst tag new cs

/-- Outcome of one invocation: either a fatal diagnostic on stderr together
with the exit status (nothing is written to the feed file), or the document
that is serialized and written. -/
inductive UpdateResult where
  | fatal : String → Nat → UpdateResult
  | ok : XElem → UpdateResult

/-- `update_appcast(...)`.  `stored` is the feed file's current parse
(`none` when the file does not exist); on success the result holds the
document written back. -/
def update_appcast (stored : Option XElem) (now : String)
    (version signature url : String) (length : Int)
    (min_system_version : String := "14.0")
    (release_notes : Option String := none)
    (max_items : Nat := 10) : UpdateResult :=
  let root := parse_appcast stored
  match findChild "channel" root with
  | none => .fatal "Error: Invalid appcast format - no channel element" 1
  | some channel =>
      let newItem := create_item now version signature url length
        min_system_version release_notes
      let newChildren := mergeChildren max_items newItem version channel.children
      let newChannel := XElem.mk channel.tag channel.attrs channel.text newChildren
      .ok (XElem.mk root.tag root.attrs root.text
            (replaceFirst "channel" newChannel root.children))

/-- One invocation's argument bundle (`now` again standing for the wall
clock at `create_item` time). -/
structure UpdateArgs where
  now : String
  version : String
  signature : String
  url : String
  length : Int
  minSys : String
  notes : Option String
deriving DecidableEq

/-- Run successive invocations, each reading the document the previous one
wrote; a fatal exit stops the pipeline. -/
def runUpdates (max_items : Nat) (r : UpdateResult) : List UpdateArgs → UpdateResult
  | [] => r
  | a :: rest =>
      match r with
      | .fatal msg code => .fatal msg code
      | .ok doc =>
          runUpdates max_items
            (update_appcast (some doc) a.now a.version a.signature a.url a.length
              a.minSys a.notes max_items) rest

/-- The version string stored on an item's enclosure, when both exist. -/
def itemVer (item : XElem) : Option String :=
  match findChild "enclosure" item with
  | some enclosure => getAttr (sparkleName "version") enclosure
  | none => none

/-- Every non-item child precedes every item child: once the leading run of
non-items ends, only items remain. -/
def metaBeforeItems (l : List XElem) : Bool :=
  (l.dropWhile (fun c => !(c.tag == "item"))).all (fun c => c.tag == "item")

/-- The channel of a successful invocation's written document (`none` on a
fatal exit, which writes nothing). -/
def channelOfResult (r : UpdateResult) : Option XElem :=
  match r with
  | .ok root => findChild "channel" root
  | .fatal _ _ => none

/-- A parseable document whose channel lists an item before a metadata
child (hand-made; the script itself never produces this shape). -/
def itemFirstDoc : XElem :=
  XElem.mk "rss" [] none
    [XElem.mk "channel" [] none
      [XElem.mk "item" [] none [],
       XElem.mk "language" [] (some "en") []]]

/-- A hand-made feed whose channel already holds two items carrying the
same stored version "1.0.0". -/
def dupVersionDoc : XElem :=
  XElem.mk "rss" [] none
    [XElem.mk "channel" [] none
      [XElem.mk "item" [] none
        [XElem.mk "enclosure" [(sparkleName "version", "1.0.0")] none []],
       XElem.mk "item" [] none
        [XElem.mk "enclosure" [(sparkleName "version", "1.0.0")] none []]]]

/-! ### Basic lemmas about the embedded operations -/

@[simp] theorem XElem.tag_mk (t : String) (a : List (String × String))
    (x : Option String) (c : List XElem) : (XElem.mk t a x c).tag = t := rfl

@[simp] theorem XElem.attrs_mk (t : String) (a : List (String × String))
    (x : Option String) (c : List XElem) : (XElem.mk t a x c).attrs = a := rfl

@[simp] theorem XElem.text_mk (t : String) (a : List (String × String))
    (x : Option String) (c : List XElem) : (XElem.mk t a x c).text = x := rfl

@[simp] theorem XElem.children_mk (t : String) (a : List (String × String))
    (x : Option String) (c : List XElem) : (XElem.mk t a x c).children = c := rfl

@[simp] theorem itemsOf_nil : itemsOf [] = [] := rfl

theorem itemsOf_cons (c : XElem) (cs : List XElem) :
    itemsOf (c :: cs) = if c.tag == "item" then c :: itemsOf cs else itemsOf cs := by
  simp [itemsOf, findallTag, List.filter_cons]

/-- The dedup scan acts on the item sublist as `List.eraseP`: it erases the
first matching item and nothing else. -/
theorem itemsOf_removeFirstMatch (v : String) (l : List XElem) :
    itemsOf (removeFirstMatch v l) = (itemsOf l).eraseP (matchesVersion v) := by
  induction l with
  | nil => rfl
  | cons c cs ih =>
      by_cases hi : (c.tag == "item") = true
      · by_cases hm : matchesVersion v c = true
        · simp [removeFirstMatch, hi, hm, itemsOf_cons, List.eraseP_cons]
        · simp [removeFirstMatch, hi, hm, itemsOf_cons, List.eraseP_cons, ih]
      · simp [removeFirstMatch, hi, itemsOf_cons, ih]

/-- The insertion-position loop computes the length of the leading run of
non-item children. -/
theorem insertPos_eq_takeWhile (l : List XElem) :
    insertPos l = (l.takeWhile (fun c => !(c.tag == "item"))).length := by
  induction l with
  | nil => rfl
  | cons c cs ih =>
      by_cases h : (c.tag == "item") = true
      · simp [insertPos, h, List.takeWhile_cons]
      · simp [insertPos, h, List.takeWhile_cons, ih]

/-- Inserting an item at the computed insertion position puts it in front of
every existing item. -/
theorem itemsOf_insert_front (x : XElem) (hx : x.tag = "item") (l : List XElem) :
    itemsOf (insertAt (insertPos l) x l) = x :: itemsOf l := by
  induction l with
  | nil => simp [insertAt, insertPos, itemsOf_cons, hx]
  | cons c cs ih =>
      by_cases h : (c.tag == "item") = true
      · simp [insertPos, h, insertAt, itemsOf_cons, hx]
      · simp only [insertPos, h, if_false, Bool.false_eq_true, insertAt,
          List.take_succ_cons, List.drop_succ_cons, List.cons_append]
        rw [itemsOf_cons, itemsOf_cons]
        simp only [h, if_false, Bool.false_eq_true]
        exact ih

/-- Dropping the items past index `k` takes the first `k` items. -/
theorem itemsOf_dropItemsAfter (k : Nat) (l : List XElem) :
    itemsOf (dropItemsAfter k l) = (itemsOf l).take k := by
  induction l generalizing k with
  | nil => simp [dropItemsAfter]
  | cons c cs ih =>
      by_cases h : (c.tag == "item") = true
      · cases k with
        | zero => simp [dropItemsAfter, h, itemsOf_cons, ih]
        | succ j => simp [dropItemsAfter, h, itemsOf_cons, ih, List.take_succ_cons]
      · simp [dropItemsAfter, h, itemsOf_cons, ih]

/-- The retention step keeps exactly the first `N` items (a no-op when there
are at most `N`). -/
theorem itemsOf_trimItems (N : Nat) (l : List XElem) :
    itemsOf (trimItems N l) = (itemsOf l).take N := by
  unfold trimItems
  by_cases h : (itemsOf l).length > N
  · simp [h, itemsOf_dropItemsAfter]
  · simp only [h, if_false]
    exact (List.take_of_length_le (Nat.le_of_not_lt h)).symm

/-- The full merge on the item sublist: erase the first match, cons the new
item, keep the first `N`. -/
theorem itemsOf_mergeChildren (N : Nat) (x : XElem) (hx : x.tag = "item")
    (v : String) (l : List XElem) :
    itemsOf (mergeChildren N x v l) =
      (x :: (itemsOf l).eraseP (matchesVersion v)).take N := by
  unfold mergeChildren preTrimChildren
  rw [itemsOf_trimItems, itemsOf_insert_front x hx, itemsOf_removeFirstMatch]

/-! ### Structure of the item built by `create_item` -/

theorem tag_create_item (now v s u : String) (l : Int) (m : String) (rn : Option String) :
    (create_item now v s u l m rn).tag = "item" := rfl

/-- The tags a release-notes child can carry. -/
theorem notesChildren_tags (rn : Option String) :
    ∀ e ∈ notesChildren rn,
      e.tag = sparkleName "releaseNotesLink" ∨ e.tag = "description" := by
  unfold notesChildren
  split
  · split
    · intro e he
      simp only [List.mem_singleton] at he
      subst he
      exact Or.inl rfl
    · intro e he
      simp only [List.mem_singleton] at he
      subst he
      exact Or.inr rfl
  · intro e he
    simp at he

theorem findChild_title_create_item (now v s u : String) (l : Int) (m : String)
    (rn : Option String) :
    findChild "title" (create_item now v s u l m rn) =
      some (XElem.mk "title" [] (some ("Version " ++ v)) []) := rfl

theorem findChild_enclosure_create_item (now v s u : String) (l : Int) (m : String)
    (rn : Option String) :
    findChild "enclosure" (create_item now v s u l m rn) =
      some (enclosureElem v s u l) := by
  unfold findChild create_item
  rw [XElem.children_mk, List.find?_append, List.find?_append]
  have hnotes : List.find? (fun c => c.tag == "enclosure") (notesChildren rn) = none := by
    rw [List.find?_eq_none]
    intro e he
    rcases notesChildren_tags rn e he with h | h <;> simp [h, sparkleName, SPARKLE_NS]
  rw [hnotes]
  rfl

theorem findChild_minSys_create_item (now v s u : String) (l : Int) (m : String)
    (rn : Option String) :
    findChild (sparkleName "minimumSystemVersion") (create_item now v s u l m rn) =
      some (XElem.mk (sparkleName "minimumSystemVersion") [] (some m) []) := by
  unfold findChild create_item
  rw [XElem.children_mk, List.find?_append, List.find?_append]
  have hnotes : List.find? (fun c => c.tag == sparkleName "minimumSystemVersion")
      (notesChildren rn) = none := by
    rw [List.find?_eq_none]
    intro e he
    rcases notesChildren_tags rn e he with h | h <;> simp [h, sparkleName, SPARKLE_NS]
  rw [hnotes]
  rfl

theorem getAttr_enclosure_url (v s u : String) (l : Int) :
    getAttr "url" (enclosureElem v s u l) = some u := rfl

theorem getAttr_enclosure_length (v s u : String) (l : Int) :
    getAttr "length" (enclosureElem v s u l) = some (toString l) := rfl

theorem getAttr_enclosure_type (v s u : String) (l : Int) :
    getAttr "type" (enclosureElem v s u l) = some "application/octet-stream" := rfl

theorem getAttr_enclosure_version (v s u : String) (l : Int) :
    getAttr (sparkleName "version") (enclosureElem v s u l) = some v := rfl

theorem getAttr_enclosure_shortVersion (v s u : String) (l : Int) :
    getAttr (sparkleName "shortVersionString") (enclosureElem v s u l) = some v := rfl

theorem getAttr_enclosure_signature (v s u : String) (l : Int) :
    getAttr (sparkleName "edSignature") (enclosureElem v s u l) = some s := rfl

/-- The freshly built item matches exactly its own version string under the
dedup test. -/
theorem matchesVersion_create_item (w now v s u : String) (l : Int) (m : String)
    (rn : Option String) :
    matchesVersion w (create_item now v s u l m rn) = (v == w) := by
  unfold matchesVersion
  rw [findChild_enclosure_create_item]
  dsimp only
  rw [getAttr_enclosure_version]
  simp

/-- Link-style release notes: a nonempty string starting with "http" yields
a `sparkle:releaseNotesLink` child and no inline `description`. -/
theorem create_item_notes_link (now v s u : String) (l : Int) (m t : String)
    (ht : t ≠ "") (hh : pyStartswith t "http" = true) :
    findChild (sparkleName "releaseNotesLink") (create_item now v s u l m (some t)) =
      some (XElem.mk (sparkleName "releaseNotesLink") [] (some t) []) ∧
    findChild "description" (create_item now v s u l m (some t)) = none := by
  constructor <;>
    simp [findChild, create_item, notesChildren, pyTruthy, ht, hh, enclosureElem,
      sparkleName, SPARKLE_NS]

/-- Inline release notes: a nonempty string not starting with "http" yields
an inline `description` child and no link element. -/
theorem create_item_notes_inline (now v s u : String) (l : Int) (m t : String)
    (ht : t ≠ "") (hh : pyStartswith t "http" = false) :
    findChild "description" (create_item now v s u l m (some t)) =
      some (XElem.mk "description" [] (some t) []) ∧
    findChild (sparkleName "releaseNotesLink") (create_item now v s u l m (some t)) =
      none := by
  constructor <;>
    simp [findChild, create_item, notesChildren, pyTruthy, ht, hh, enclosureElem,
      sparkleName, SPARKLE_NS]

/-- Absent release notes: neither element is produced. -/
theorem create_item_notes_absent (now v s u : String) (l : Int) (m : String) :
    findChild "description" (create_item now v s u l m none) = none ∧
    findChild (sparkleName "releaseNotesLink") (create_item now v s u l m none) =
      none := by
  constructor <;>
    simp [findChild, create_item, notesChildren, pyTruthy, enclosureElem,
      sparkleName, SPARKLE_NS]

/-! ### Locating and replacing the channel -/

/-- What `find?` returns carries the searched tag. -/
theorem findChild_tag (t : String) (e c : XElem) (h : findChild t e = some c) :
    c.tag = t := by
  have h2 := List.find?_some h
  simpa using h2

theorem find?_replaceFirst (t : String) (x : XElem) (hx : x.tag = t)
    (l : List XElem) (c : XElem)
    (hc : List.find? (fun e => e.tag == t) l = some c) :
    List.find? (fun e => e.tag == t) (replaceFirst t x l) = some x := by
  induction l with
  | nil => simp [List.find?] at hc
  | cons d ds ih =>
      by_cases hd : (d.tag == t) = true
      · simp [replaceFirst, hd, hx, List.find?]
      · rw [List.find?_cons_of_neg (p := fun (e : XElem) => e.tag == t) _ hd] at hc
        simp only [replaceFirst, hd, if_false, Bool.false_eq_true]
        rw [List.find?_cons_of_neg (p := fun (e : XElem) => e.tag == t) _ hd]
        exact ih hc

/-- One successful invocation, written out: the stored document has a
channel, and the result is the same document with that channel's children
run through dedup + insert + trim. -/
theorem update_appcast_ok (root c : XElem) (hc : findChild "channel" root = some c)
    (now v s u : String) (l : Int) (m : String) (rn : Option String) (N : Nat) :
    update_appcast (some root) now v s u l m rn N =
      .ok (XElem.mk root.tag root.attrs root.text
        (replaceFirst "channel"
          (XElem.mk c.tag c.attrs c.text
            (mergeChildren N (create_item now v s u l m rn) v c.children))
          root.children)) := by
  simp only [update_appcast, parse_appcast, hc]

/-- One successful invocation at channel level: the new document's channel
is the old one with merged children. -/
theorem update_appcast_channel (root c : XElem)
    (hc : findChild "channel" root = some c)
    (now v s u : String) (l : Int) (m : String) (rn : Option String) (N : Nat) :
    ∃ root', update_appcast (some root) now v s u l m rn N = .ok root' ∧
      findChild "channel" root' =
        some (XElem.mk c.tag c.attrs c.text
          (mergeChildren N (create_item now v s u l m rn) v c.children)) := by
  refine ⟨_, update_appcast_ok root c hc now v s u l m rn N, ?_⟩
  unfold findChild
  rw [XElem.children_mk]
  exact find?_replaceFirst "channel"
    (XElem.mk c.tag c.attrs c.text
      (mergeChildren N (create_item now v s u l m rn) v c.children))
    (by simp [findChild_tag "channel" root c hc])
    root.children c hc

/-! ### The stored version of an item, and generic counting helpers -/

/-- The dedup test is literal string equality against the stored version
attribute (an item without one never matches). -/
theorem matchesVersion_eq_itemVer (w : String) (it : XElem) :
    matchesVersion w it = (itemVer it == some w) := by
  unfold matchesVersion itemVer
  cases findChild "enclosure" it <;> simp

theorem itemVer_create_item (now v s u : String) (l : Int) (m : String)
    (rn : Option String) :
    itemVer (create_item now v s u l m rn) = some v := by
  unfold itemVer
  rw [findChild_enclosure_create_item]
  exact getAttr_enclosure_version v s u l

/-- Erasing the only possible match empties the match count. -/
theorem countP_eraseP_le_one {α : Type} (p : α → Bool) (l : List α)
    (h : l.countP p ≤ 1) : (l.eraseP p).countP p = 0 := by
  induction l with
  | nil => simp
  | cons x xs ih =>
      by_cases hx : p x = true
      · rw [List.eraseP_cons_of_pos hx]
        rw [List.countP_cons_of_pos _ _ hx] at h
        omega
      · rw [List.eraseP_cons_of_neg hx, List.countP_cons_of_neg _ _ hx]
        rw [List.countP_cons_of_neg _ _ hx] at h
        exact ih h

/-- Erasing the first `p`-match leaves the count of any predicate disjoint
from `p` unchanged. -/
theorem countP_eraseP_disjoint {α : Type} (p q : α → Bool)
    (hpq : ∀ x, q x = true → p x = false) (l : List α) :
    (l.eraseP p).countP q = l.countP q := by
  induction l with
  | nil => simp
  | cons x xs ih =>
      by_cases hx : p x = true
      · rw [List.eraseP_cons_of_pos hx]
        have hqx : q x = false := by
          by_cases hq : q x = true
          · rw [hpq x hq] at hx
            simp at hx
          · simpa using hq
        rw [List.countP_cons_of_neg]
        simp [hqx]
      · rw [List.eraseP_cons_of_neg hx]
        by_cases hq : q x = true
        · rw [List.countP_cons_of_pos _ _ hq, List.countP_cons_of_pos _ _ hq, ih]
        · rw [List.countP_cons_of_neg _ _ (by simpa using hq),
            List.countP_cons_of_neg _ _ (by simpa using hq), ih]

/-- Erasing an actual match drops exactly one from the match count. -/
theorem countP_eraseP_of_mem {α : Type} (p : α → Bool) (l : List α)
    (h : 0 < l.countP p) : (l.eraseP p).countP p + 1 = l.countP p := by
  induction l with
  | nil => simp at h
  | cons x xs ih =>
      by_cases hx : p x = true
      · rw [List.eraseP_cons_of_pos hx, List.countP_cons_of_pos _ _ hx]
      · rw [List.eraseP_cons_of_neg hx]
        rw [List.countP_cons_of_neg _ _ hx]
        rw [List.countP_cons_of_neg _ _ hx]
        rw [List.countP_cons_of_neg _ _ hx] at h
        exact ih h

/-- When nothing matches, the dedup scan leaves the children untouched. -/
theorem removeFirstMatch_of_no_match (v : String) (l : List XElem)
    (h : ∀ c ∈ l, (c.tag == "item" && matchesVersion v c) = false) :
    removeFirstMatch v l = l := by
  induction l with
  | nil => rfl
  | cons c cs ih =>
      rw [removeFirstMatch]
      rw [h c (List.mem_cons_self c cs)]
      simp only [Bool.false_eq_true, if_false]
      rw [ih (fun d hd => h d (List.mem_cons_of_mem c hd))]

/-! ### Iterated updates with pairwise-distinct versions -/

/-- Invariant fold: starting from a document whose channel's items are all
disjoint from the upcoming versions, and whose item count is within the
retention limit, a run of updates with pairwise-distinct versions grows the
item count to `min (k + M) N`. -/
theorem runUpdates_distinct (N : Nat) :
    ∀ (us : List UpdateArgs) (root c : XElem),
      findChild "channel" root = some c →
      (us.map (fun a => a.version)).Pairwise (· ≠ ·) →
      (∀ it ∈ itemsOf c.children, ∀ a ∈ us, matchesVersion a.version it = false) →
      (itemsOf c.children).length ≤ N →
      ∃ root' c', runUpdates N (.ok root) us = .ok root' ∧
        findChild "channel" root' = some c' ∧
        (itemsOf c'.children).length = min (us.length + (itemsOf c.children).length) N := by
  intro us
  induction us with
  | nil =>
      intro root c hc _ _ hk
      refine ⟨root, c, rfl, hc, ?_⟩
      simp only [List.length_nil]
      omega
  | cons a rest ih =>
      intro root c hc hdist hno hk
      obtain ⟨root1, hup, hch1⟩ := update_appcast_channel root c hc
        a.now a.version a.signature a.url a.length a.minSys a.notes N
      set newItem := create_item a.now a.version a.signature a.url a.length
        a.minSys a.notes with hnew
      have hitems1 : itemsOf (mergeChildren N newItem a.version c.children) =
          (newItem :: itemsOf c.children).take N := by
        rw [itemsOf_mergeChildren N newItem rfl a.version c.children]
        rw [List.eraseP_of_forall_not]
        intro it hit
        have := hno it hit a (List.mem_cons_self a rest)
        simp [this]
      rw [List.map_cons, List.pairwise_cons] at hdist
      obtain ⟨hhead, htail⟩ := hdist
      have hsub : ∀ it ∈ itemsOf (mergeChildren N newItem a.version c.children),
          it = newItem ∨ it ∈ itemsOf c.children := by
        intro it hit
        rw [hitems1] at hit
        have := (List.take_sublist N (newItem :: itemsOf c.children)).subset hit
        rcases List.mem_cons.mp this with h | h
        · exact Or.inl h
        · exact Or.inr h
      have hno1 : ∀ it ∈ itemsOf (mergeChildren N newItem a.version c.children),
          ∀ b ∈ rest, matchesVersion b.version it = false := by
        intro it hit b hb
        rcases hsub it hit with h | h
        · subst h
          rw [hnew, matchesVersion_create_item]
          have : a.version ≠ b.version := hhead b.version (by
            exact List.mem_map_of_mem (fun x => x.version) hb)
          simp [this]
        · exact hno it h b (List.mem_cons_of_mem a hb)
      have hlen1 : (itemsOf (mergeChildren N newItem a.version c.children)).length =
          min (1 + (itemsOf c.children).length) N := by
        rw [hitems1, List.length_take, List.length_cons]
        omega
      obtain ⟨root', c', hrun, hch', hlen'⟩ := ih root1
        (XElem.mk c.tag c.attrs c.text (mergeChildren N newItem a.version c.children))
        hch1 htail
        (by
          rw [XElem.children_mk]
          exact hno1)
        (by
          rw [XElem.children_mk, hlen1]
          omega)
      refine ⟨root', c', ?_, hch', ?_⟩
      · rw [runUpdates, hup]
        exact hrun
      · rw [hlen']
        rw [XElem.children_mk, hlen1]
        simp only [List.length_cons]
        omega

/-! ### Metadata-before-items ordering -/

/-- Split characterization of `metaBeforeItems`. -/
theorem metaBeforeItems_iff (l : List XElem) :
    metaBeforeItems l = true ↔
      ∃ m i, l = m ++ i ∧ (∀ e ∈ m, (e.tag == "item") = false) ∧
        (∀ e ∈ i, (e.tag == "item") = true) := by
  constructor
  · intro h
    refine ⟨l.takeWhile (fun c => !(c.tag == "item")),
      l.dropWhile (fun c => !(c.tag == "item")),
      (List.takeWhile_append_dropWhile _ _).symm, ?_, ?_⟩
    · intro e he
      have := List.mem_takeWhile_imp he
      simpa using this
    · intro e he
      unfold metaBeforeItems at h
      rw [List.all_eq_true] at h
      exact h e he
  · rintro ⟨m, i, rfl, hm, hi⟩
    induction m with
    | nil =>
        unfold metaBeforeItems
        rw [List.all_eq_true]
        intro e he
        exact hi e ((List.dropWhile_sublist _).subset he)
    | cons d ds ihm =>
        unfold metaBeforeItems
        rw [List.cons_append, List.dropWhile_cons]
        have hd := hm d (List.mem_cons_self d ds)
        simp only [hd, Bool.not_false, if_true]
        exact ihm (fun e he => hm e (List.mem_cons_of_mem d he))

/-- `metaBeforeItems` is inherited by sublists. -/
theorem metaBeforeItems_sublist (l l' : List XElem) (h : List.Sublist l' l)
    (hm : metaBeforeItems l = true) : metaBeforeItems l' = true := by
  rw [metaBeforeItems_iff] at hm ⊢
  obtain ⟨m, i, rfl, hmm, hii⟩ := hm
  rw [List.sublist_append_iff] at h
  obtain ⟨m', i', rfl, hsm, hsi⟩ := h
  exact ⟨m', i', rfl, fun e he => hmm e (hsm.subset he),
    fun e he => hii e (hsi.subset he)⟩

/-- The dedup scan returns a sublist of the children. -/
theorem removeFirstMatch_sublist (v : String) (l : List XElem) :
    List.Sublist (removeFirstMatch v l) l := by
  induction l with
  | nil => exact List.Sublist.refl []
  | cons c cs ih =>
      rw [removeFirstMatch]
      by_cases h : (c.tag == "item" && matchesVersion v c) = true
      · simp only [h, if_true]
        exact List.sublist_cons_self c cs
      · simp only [h, if_false, Bool.false_eq_true]
        exact ih.cons₂ c

/-- The trim loop returns a sublist of the children. -/
theorem dropItemsAfter_sublist (k : Nat) (l : List XElem) :
    List.Sublist (dropItemsAfter k l) l := by
  induction l generalizing k with
  | nil => exact List.Sublist.refl []
  | cons c cs ih =>
      by_cases h : (c.tag == "item") = true
      · cases k with
        | zero =>
            simp only [dropItemsAfter, h, if_true]
            exact (ih 0).trans (List.sublist_cons_self c cs)
        | succ j =>
            simp only [dropItemsAfter, h, if_true]
            exact (ih j).cons₂ c
      · simp only [dropItemsAfter, h, if_false, Bool.false_eq_true]
        exact (ih k).cons₂ c

theorem trimItems_sublist (N : Nat) (l : List XElem) : List.Sublist (trimItems N l) l := by
  unfold trimItems
  by_cases h : (itemsOf l).length > N
  · simp only [h, if_true]
    exact dropItemsAfter_sublist N l
  · simp only [h, if_false]
    exact List.Sublist.refl l

/-- Inserting at the computed position lands exactly between a non-item
prefix and an item suffix. -/
theorem insert_front_split (x : XElem) :
    ∀ (m i : List XElem), (∀ e ∈ m, (e.tag == "item") = false) →
      (∀ e ∈ i, (e.tag == "item") = true) →
      insertAt (insertPos (m ++ i)) x (m ++ i) = m ++ x :: i := by
  intro m
  induction m with
  | nil =>
      intro i _ hi
      cases i with
      | nil => rfl
      | cons y ys =>
          rw [List.nil_append, insertPos]
          have hy := hi y (List.mem_cons_self y ys)
          simp only [hy, if_true]
          rfl
  | cons d ds ihm =>
      intro i hm hi
      rw [List.cons_append, insertPos]
      have hd := hm d (List.mem_cons_self d ds)
      simp only [hd, if_false, Bool.false_eq_true]
      rw [insertAt, List.take_succ_cons, List.drop_succ_cons, List.cons_append]
      rw [← insertAt]
      rw [ihm i (fun e he => hm e (List.mem_cons_of_mem d he)) hi]
      rfl

/-- The merged children keep metadata before items whenever the input
children do. -/
theorem metaBeforeItems_mergeChildren (N : Nat) (x : XElem)
    (hx : x.tag = "item") (v : String) (l : List XElem)
    (hm : metaBeforeItems l = true) :
    metaBeforeItems (mergeChildren N x v l) = true := by
  have h1 : metaBeforeItems (removeFirstMatch v l) = true :=
    metaBeforeItems_sublist l (removeFirstMatch v l) (removeFirstMatch_sublist v l) hm
  rw [metaBeforeItems_iff] at h1
  obtain ⟨m, i, hsplit, hmm, hii⟩ := h1
  have h2 : preTrimChildren x v l = m ++ x :: i := by
    unfold preTrimChildren
    rw [hsplit]
    exact insert_front_split x m i hmm hii
  have h3 : metaBeforeItems (preTrimChildren x v l) = true := by
    rw [h2, metaBeforeItems_iff]
    refine ⟨m, x :: i, rfl, hmm, ?_⟩
    intro e he
    rcases List.mem_cons.mp he with h | h
    · subst h
      simp [hx]
    · exact hii e h
  exact metaBeforeItems_sublist _ _ (trimItems_sublist N _) h3

/-! ### The claims -/

/-- C5: If the parsed document has no channel element, the update prints the
diagnostic to stderr and exits with status 1, and no document is written
(the result is never `ok`, so the stored feed is untouched). -/
theorem C5_no_channel_fatal (root : XElem) (h : findChild "channel" root = none)
    (now v s u : String) (l : Int) (m : String) (rn : Option String) (N : Nat) :
    update_appcast (some root) now v s u l m rn N =
      .fatal "Error: Invalid appcast format - no channel element" 1 ∧
    ∀ d : XElem, update_appcast (some root) now v s u l m rn N ≠ .ok d := by
  have heq : update_appcast (some root) now v s u l m rn N =
      .fatal "Error: Invalid appcast format - no channel element" 1 := by
    simp only [update_appcast, parse_appcast, h]
  refine ⟨heq, fun d hd => ?_⟩
  rw [heq] at hd
  exact UpdateResult.noConfusion hd

theorem C5_no_channel_fatal_witness :
    update_appcast (some (XElem.mk "rss" [] none [])) "now" "1.0.0" "sig" "url" 5
        "14.0" none 10 =
      .fatal "Error: Invalid appcast format - no channel element" 1 :=
  (C5_no_channel_fatal (XElem.mk "rss" [] none []) rfl "now" "1.0.0" "sig" "url" 5
    "14.0" none 10).1

/-- C6: The built item has title text `"Version {v}"`, an enclosure carrying
exactly the URL, the length rendered as text, the fixed content-type
literal, the version twice (raw tag and display tag), and the signature
verbatim; the minimum-OS field is always present with the given value, and
it defaults to `"14.0"` (and the notes to none) when not specified. -/
theorem C6_item_fields (now v s u m : String) (l : Int) (rn : Option String) :
    findChild "title" (create_item now v s u l m rn) =
      some (XElem.mk "title" [] (some ("Version " ++ v)) []) ∧
    findChild "enclosure" (create_item now v s u l m rn) =
      some (enclosureElem v s u l) ∧
    getAttr "url" (enclosureElem v s u l) = some u ∧
    getAttr "length" (enclosureElem v s u l) = some (toString l) ∧
    getAttr "type" (enclosureElem v s u l) = some "application/octet-stream" ∧
    getAttr (sparkleName "version") (enclosureElem v s u l) = some v ∧
    getAttr (sparkleName "shortVersionString") (enclosureElem v s u l) = some v ∧
    getAttr (sparkleName "edSignature") (enclosureElem v s u l) = some s ∧
    findChild (sparkleName "minimumSystemVersion") (create_item now v s u l m rn) =
      some (XElem.mk (sparkleName "minimumSystemVersion") [] (some m) []) ∧
    create_item now v s u l = create_item now v s u l "14.0" none :=
  ⟨findChild_title_create_item now v s u l m rn,
   findChild_enclosure_create_item now v s u l m rn,
   rfl, rfl, rfl, rfl, rfl, rfl,
   findChild_minSys_create_item now v s u l m rn, rfl⟩

/-- C9: Passing the empty string as release notes behaves exactly like
passing no release notes: the built items are equal, and neither a
release-notes link nor an inline description child is present. -/
theorem C9_empty_notes_like_absent (now v s u : String) (l : Int) (m : String) :
    create_item now v s u l m (some "") = create_item now v s u l m none ∧
    findChild "description" (create_item now v s u l m (some "")) = none ∧
    findChild (sparkleName "releaseNotesLink") (create_item now v s u l m (some "")) =
      none :=
  ⟨rfl, (create_item_notes_absent now v s u l m).1,
   (create_item_notes_absent now v s u l m).2⟩

/-- C7 counterexample: release notes `""` are provided and do not start
with `"http"`, yet the built item contains no inline description (and no
link) — Python's falsy empty string skips the whole branch, so the claim's
"provided and does not start with http implies inline description" fails. -/
theorem C7_counterexample :
    findChild "description"
      (create_item "now" "1.0.0" "sig" "url" 100 "14.0" (some "")) = none ∧
    findChild (sparkleName "releaseNotesLink")
      (create_item "now" "1.0.0" "sig" "url" 100 "14.0" (some "")) = none ∧
    pyStartswith "" "http" = false :=
  ⟨rfl, rfl, rfl⟩

/-- C7 (amended): for provided NONEMPTY release notes, a string starting
with "http" yields the link element (with that text) and no inline
description; a string not starting with "http" yields the inline
description and no link; absent notes yield neither. -/
theorem C7_release_notes_branch (now v s u : String) (l : Int) (m : String) :
    (∀ t : String, t ≠ "" → pyStartswith t "http" = true →
        findChild (sparkleName "releaseNotesLink")
            (create_item now v s u l m (some t)) =
          some (XElem.mk (sparkleName "releaseNotesLink") [] (some t) []) ∧
        findChild "description" (create_item now v s u l m (some t)) = none) ∧
    (∀ t : String, t ≠ "" → pyStartswith t "http" = false →
        findChild "description" (create_item now v s u l m (some t)) =
          some (XElem.mk "description" [] (some t) []) ∧
        findChild (sparkleName "releaseNotesLink")
          (create_item now v s u l m (some t)) = none) ∧
    (findChild "description" (create_item now v s u l m none) = none ∧
     findChild (sparkleName "releaseNotesLink") (create_item now v s u l m none) =
       none) :=
  ⟨fun t ht hh => create_item_notes_link now v s u l m t ht hh,
   fun t ht hh => create_item_notes_inline now v s u l m t ht hh,
   create_item_notes_absent now v s u l m⟩

theorem C7_release_notes_branch_witness :
    (findChild (sparkleName "releaseNotesLink")
        (create_item "now" "1.0.0" "sig" "url" 5 "14.0" (some "https://x/notes")) =
      some (XElem.mk (sparkleName "releaseNotesLink") [] (some "https://x/notes") []) ∧
     findChild "description"
        (create_item "now" "1.0.0" "sig" "url" 5 "14.0" (some "https://x/notes")) =
      none) ∧
    (findChild "description"
        (create_item "now" "1.0.0" "sig" "url" 5 "14.0" (some "Bug fixes")) =
      some (XElem.mk "description" [] (some "Bug fixes") []) ∧
     findChild (sparkleName "releaseNotesLink")
        (create_item "now" "1.0.0" "sig" "url" 5 "14.0" (some "Bug fixes")) =
      none) :=
  ⟨(C7_release_notes_branch "now" "1.0.0" "sig" "url" 5 "14.0").1
      "https://x/notes" (by decide) (by decide),
   (C7_release_notes_branch "now" "1.0.0" "sig" "url" 5 "14.0").2.1
      "Bug fixes" (by decide) (by decide)⟩

/-- C4 counterexample: a parseable input whose channel lists an item before
a metadata child is accepted by the update, and the written document still
has a metadata child after an item — the stated invariant does not hold for
every accepted input. -/
theorem C4_counterexample :
    (channelOfResult
        (update_appcast (some itemFirstDoc) "now" "1.0.0" "sig" "url" 5 "14.0"
          none 10)).map (fun c => metaBeforeItems c.children) = some false := by
  rfl

/-- C4 (amended): for every accepted input whose channel already lists all
metadata (non-item) children before all item children, the update preserves
that ordering: in the written document every non-item child of the channel
still precedes every item child. -/
theorem C4_meta_before_items (root c : XElem)
    (hc : findChild "channel" root = some c)
    (hm : metaBeforeItems c.children = true)
    (now v s u : String) (l : Int) (m : String) (rn : Option String) (N : Nat) :
    ∃ root' c', update_appcast (some root) now v s u l m rn N = .ok root' ∧
      findChild "channel" root' = some c' ∧
      metaBeforeItems c'.children = true := by
  obtain ⟨root', hup, hch⟩ := update_appcast_channel root c hc now v s u l m rn N
  refine ⟨root', _, hup, hch, ?_⟩
  rw [XElem.children_mk]
  exact metaBeforeItems_mergeChildren N (create_item now v s u l m rn)
    (tag_create_item now v s u l m rn) v c.children hm

theorem C4_meta_before_items_witness :
    ∃ root' c',
      update_appcast (some (parse_appcast none)) "now" "1.0.0" "sig" "url" 5
          "14.0" none 10 = .ok root' ∧
      findChild "channel" root' = some c' ∧
      metaBeforeItems c'.children = true :=
  C4_meta_before_items (parse_appcast none)
    (XElem.mk "channel" [] none
      [XElem.mk "title" [] (some "Orbit Updates") [],
       XElem.mk "link" [] (some "https://github.com/thirteen37/Orbit") [],
       XElem.mk "description" [] (some "Most recent updates to Orbit") [],
       XElem.mk "language" [] (some "en") []])
    rfl (by decide) "now" "1.0.0" "sig" "url" 5 "14.0" none 10

/-- C1: Starting from an absent (hence template) feed, M successive updates
with pairwise-distinct versions and retention N leave exactly min(M, N)
items; and in any single update, whenever the post-insertion item count
exceeds N, items are dropped from the end until exactly N remain (the kept
items are the first N, in order). -/
theorem C1_retention_bound (N : Nat) (us : List UpdateArgs)
    (hdist : (us.map (fun a => a.version)).Pairwise (· ≠ ·)) :
    (∃ root' c', runUpdates N (.ok (parse_appcast none)) us = .ok root' ∧
        findChild "channel" root' = some c' ∧
        (itemsOf c'.children).length = min us.length N) ∧
    (∀ (x : XElem) (v : String) (l : List XElem),
        N < (itemsOf (preTrimChildren x v l)).length →
        itemsOf (mergeChildren N x v l) =
          (itemsOf (preTrimChildren x v l)).take N ∧
        (itemsOf (mergeChildren N x v l)).length = N) := by
  constructor
  · have hc : findChild "channel" (parse_appcast none) =
        some (XElem.mk "channel" [] none
          [XElem.mk "title" [] (some "Orbit Updates") [],
           XElem.mk "link" [] (some "https://github.com/thirteen37/Orbit") [],
           XElem.mk "description" [] (some "Most recent updates to Orbit") [],
           XElem.mk "language" [] (some "en") []]) := rfl
    obtain ⟨root', c', hrun, hch, hlen⟩ := runUpdates_distinct N us
      (parse_appcast none) _ hc hdist
      (by
        intro it hit
        simp [itemsOf, findallTag, List.filter] at hit)
      (by
        rw [XElem.children_mk]
        simp [itemsOf, findallTag, List.filter])
    refine ⟨root', c', hrun, hch, ?_⟩
    rw [hlen, XElem.children_mk]
    simp [itemsOf, findallTag, List.filter]
  · intro x v l hlt
    refine ⟨itemsOf_trimItems N (preTrimChildren x v l), ?_⟩
    have h2 : itemsOf (mergeChildren N x v l) =
        (itemsOf (preTrimChildren x v l)).take N :=
      itemsOf_trimItems N (preTrimChildren x v l)
    rw [h2, List.length_take]
    omega

theorem C1_retention_bound_witness :
    (∃ root' c',
        runUpdates 1 (.ok (parse_appcast none))
          [⟨"now1", "1.0.0", "sigA", "urlA", 10, "14.0", none⟩,
           ⟨"now2", "1.1.0", "sigB", "urlB", 20, "14.0", none⟩] = .ok root' ∧
        findChild "channel" root' = some c' ∧
        (itemsOf c'.children).length =
          min (List.length
            [(⟨"now1", "1.0.0", "sigA", "urlA", 10, "14.0", none⟩ : UpdateArgs),
             ⟨"now2", "1.1.0", "sigB", "urlB", 20, "14.0", none⟩]) 1) ∧
    (itemsOf (mergeChildren 1 (XElem.mk "item" [] none []) "2.0"
        [XElem.mk "item" [] none [], XElem.mk "item" [] none []]) =
      (itemsOf (preTrimChildren (XElem.mk "item" [] none []) "2.0"
        [XElem.mk "item" [] none [], XElem.mk "item" [] none []])).take 1 ∧
     (itemsOf (mergeChildren 1 (XElem.mk "item" [] none []) "2.0"
        [XElem.mk "item" [] none [], XElem.mk "item" [] none []])).length = 1) :=
  ⟨(C1_retention_bound 1
      [⟨"now1", "1.0.0", "sigA", "urlA", 10, "14.0", none⟩,
       ⟨"now2", "1.1.0", "sigB", "urlB", 20, "14.0", none⟩] (by decide)).1,
   (C1_retention_bound 1
      [⟨"now1", "1.0.0", "sigA", "urlA", 10, "14.0", none⟩,
       ⟨"now2", "1.1.0", "sigB", "urlB", 20, "14.0", none⟩] (by decide)).2
     (XElem.mk "item" [] none []) "2.0"
     [XElem.mk "item" [] none [], XElem.mk "item" [] none []] (by decide)⟩

/-- C3: In every successful update the new item is inserted immediately
after the leading run of non-item children of the (post-dedup) channel, so
that afterwards the freshly built item is the first item child of the
channel (retention permitting at least one item). -/
theorem C3_new_item_first (root c : XElem) (hc : findChild "channel" root = some c)
    (now v s u : String) (l : Int) (m : String) (rn : Option String)
    (N : Nat) (hN : 1 ≤ N) :
    (∀ (x : XElem) (w : String) (l' : List XElem),
        preTrimChildren x w l' =
          insertAt
            (((removeFirstMatch w l').takeWhile
                (fun e => !(e.tag == "item"))).length)
            x (removeFirstMatch w l')) ∧
    ∃ root' c', update_appcast (some root) now v s u l m rn N = .ok root' ∧
      findChild "channel" root' = some c' ∧
      (itemsOf c'.children).head? = some (create_item now v s u l m rn) := by
  constructor
  · intro x w l'
    unfold preTrimChildren
    rw [insertPos_eq_takeWhile]
  · obtain ⟨root', hup, hch⟩ := update_appcast_channel root c hc now v s u l m rn N
    refine ⟨root', _, hup, hch, ?_⟩
    rw [XElem.children_mk,
      itemsOf_mergeChildren N (create_item now v s u l m rn)
        (tag_create_item now v s u l m rn) v c.children]
    obtain ⟨n, rfl⟩ : ∃ n, N = n + 1 := ⟨N - 1, by omega⟩
    rw [List.take_succ_cons]
    rfl

theorem C3_new_item_first_witness :
    (preTrimChildren (XElem.mk "item" [] none []) "2.0"
        [XElem.mk "title" [] none [], XElem.mk "item" [] none []] =
      insertAt
        (((removeFirstMatch "2.0"
            [XElem.mk "title" [] none [], XElem.mk "item" [] none []]).takeWhile
              (fun e => !(e.tag == "item"))).length)
        (XElem.mk "item" [] none [])
        (removeFirstMatch "2.0"
          [XElem.mk "title" [] none [], XElem.mk "item" [] none []])) ∧
    ∃ root' c',
      update_appcast (some (parse_appcast none)) "now" "1.0.0" "sig" "url" 5
          "14.0" none 10 = .ok root' ∧
      findChild "channel" root' = some c' ∧
      (itemsOf c'.children).head? =
        some (create_item "now" "1.0.0" "sig" "url" 5 "14.0" none) := by
  have h := C3_new_item_first (parse_appcast none)
    (XElem.mk "channel" [] none
      [XElem.mk "title" [] (some "Orbit Updates") [],
       XElem.mk "link" [] (some "https://github.com/thirteen37/Orbit") [],
       XElem.mk "description" [] (some "Most recent updates to Orbit") [],
       XElem.mk "language" [] (some "en") []])
    rfl "now" "1.0.0" "sig" "url" 5 "14.0" none 10 (by decide)
  exact ⟨h.1 (XElem.mk "item" [] none []) "2.0"
    [XElem.mk "title" [] none [], XElem.mk "item" [] none []], h.2⟩

/-- C8: Against a non-existent feed file the update synthesizes the default
document — fixed channel metadata (title, link, description, language) and
no items — and that single update yields a feed with exactly one item
(retention permitting at least one item). -/
theorem C8_template_bootstrap (now v s u : String) (l : Int) (m : String)
    (rn : Option String) (N : Nat) (hN : 1 ≤ N) :
    parse_appcast none = create_appcast_template ∧
    (∃ c0, findChild "channel" (parse_appcast none) = some c0 ∧
       itemsOf c0.children = [] ∧
       c0.children.map (fun e => (e.tag, e.text)) =
         [("title", some "Orbit Updates"),
          ("link", some "https://github.com/thirteen37/Orbit"),
          ("description", some "Most recent updates to Orbit"),
          ("language", some "en")]) ∧
    ∃ root' c', update_appcast none now v s u l m rn N = .ok root' ∧
      findChild "channel" root' = some c' ∧
      (itemsOf c'.children).length = 1 := by
  refine ⟨rfl, ⟨_, rfl, rfl, rfl⟩, ?_⟩
  have hmatch : update_appcast none now v s u l m rn N =
      update_appcast (some create_appcast_template) now v s u l m rn N := rfl
  rw [hmatch]
  obtain ⟨root', hup, hch⟩ := update_appcast_channel create_appcast_template
    (XElem.mk "channel" [] none
      [XElem.mk "title" [] (some "Orbit Updates") [],
       XElem.mk "link" [] (some "https://github.com/thirteen37/Orbit") [],
       XElem.mk "description" [] (some "Most recent updates to Orbit") [],
       XElem.mk "language" [] (some "en") []])
    rfl now v s u l m rn N
  refine ⟨root', _, hup, hch, ?_⟩
  rw [XElem.children_mk,
    itemsOf_mergeChildren N (create_item now v s u l m rn)
      (tag_create_item now v s u l m rn) v _]
  obtain ⟨n, rfl⟩ : ∃ n, N = n + 1 := ⟨N - 1, by omega⟩
  simp only [XElem.children_mk]
  rw [show itemsOf
      [XElem.mk "title" [] (some "Orbit Updates") [],
       XElem.mk "link" [] (some "https://github.com/thirteen37/Orbit") [],
       XElem.mk "description" [] (some "Most recent updates to Orbit") [],
       XElem.mk "language" [] (some "en") []] = [] from rfl]
  rw [List.eraseP_nil, List.take_succ_cons, List.take_nil]
  rfl

theorem C8_template_bootstrap_witness :
    parse_appcast none = create_appcast_template ∧
    (∃ c0, findChild "channel" (parse_appcast none) = some c0 ∧
       itemsOf c0.children = [] ∧
       c0.children.map (fun e => (e.tag, e.text)) =
         [("title", some "Orbit Updates"),
          ("link", some "https://github.com/thirteen37/Orbit"),
          ("description", some "Most recent updates to Orbit"),
          ("language", some "en")]) ∧
    ∃ root' c',
      update_appcast none "now" "1.0.0" "SIG_A" "https://x/y/App-1.0.0.zip" 1000
          "14.0" none 10 = .ok root' ∧
      findChild "channel" root' = some c' ∧
      (itemsOf c'.children).length = 1 :=
  C8_template_bootstrap "now" "1.0.0" "SIG_A" "https://x/y/App-1.0.0.zip" 1000
    "14.0" none 10 (by decide)

/-- C2: Updating twice with the same version (on a feed holding at most one
item with that stored version) leaves exactly one item carrying it, and that
item is the one built from the second call's data; the dedup match is
literal string equality on the stored version attribute (an exact-string
test, so "1.0" does not match "1.0.0"). -/
theorem C2_same_version_replace (root c : XElem)
    (hc : findChild "channel" root = some c) (v : String)
    (hone : (itemsOf c.children).countP (matchesVersion v) ≤ 1)
    (N : Nat) (hN : 1 ≤ N) (a1 a2 : UpdateArgs)
    (hv1 : a1.version = v) (hv2 : a2.version = v) :
    (∃ root' c', runUpdates N (.ok root) [a1, a2] = .ok root' ∧
       findChild "channel" root' = some c' ∧
       (itemsOf c'.children).countP (matchesVersion v) = 1 ∧
       (itemsOf c'.children).head? =
         some (create_item a2.now a2.version a2.signature a2.url a2.length
           a2.minSys a2.notes)) ∧
    (∀ (w : String) (it : XElem), matchesVersion w it = (itemVer it == some w)) ∧
    matchesVersion "1.0"
      (create_item "now" "1.0.0" "sig" "url" 100 "14.0" none) = false := by
  refine ⟨?_, matchesVersion_eq_itemVer, rfl⟩
  obtain ⟨n, rfl⟩ : ∃ n, N = n + 1 := ⟨N - 1, by omega⟩
  obtain ⟨root1, hup1, hch1⟩ := update_appcast_channel root c hc
    a1.now a1.version a1.signature a1.url a1.length a1.minSys a1.notes (n + 1)
  obtain ⟨root2, hup2, hch2⟩ := update_appcast_channel root1 _ hch1
    a2.now a2.version a2.signature a2.url a2.length a2.minSys a2.notes (n + 1)
  have hrun : runUpdates (n + 1) (.ok root) [a1, a2] = .ok root2 := by
    rw [runUpdates, hup1, runUpdates, hup2, runUpdates]
  have hi1 : itemsOf (mergeChildren (n + 1)
      (create_item a1.now a1.version a1.signature a1.url a1.length a1.minSys
        a1.notes) a1.version c.children) =
      create_item a1.now a1.version a1.signature a1.url a1.length a1.minSys
        a1.notes ::
        ((itemsOf c.children).eraseP (matchesVersion a1.version)).take n := by
    rw [itemsOf_mergeChildren (n + 1) _
      (tag_create_item a1.now a1.version a1.signature a1.url a1.length a1.minSys
        a1.notes) a1.version c.children, List.take_succ_cons]
  have hcount0 : ((itemsOf c.children).eraseP (matchesVersion a1.version)).countP
      (matchesVersion v) = 0 := by
    rw [hv1]
    exact countP_eraseP_le_one (matchesVersion v) (itemsOf c.children) hone
  have hmv12 : matchesVersion a2.version
      (create_item a1.now a1.version a1.signature a1.url a1.length a1.minSys
        a1.notes) = true := by
    rw [matchesVersion_create_item, hv1, hv2]
    exact beq_self_eq_true v
  have hi2 : itemsOf (mergeChildren (n + 1)
      (create_item a2.now a2.version a2.signature a2.url a2.length a2.minSys
        a2.notes) a2.version
      (XElem.mk c.tag c.attrs c.text (mergeChildren (n + 1)
        (create_item a1.now a1.version a1.signature a1.url a1.length a1.minSys
          a1.notes) a1.version c.children)).children) =
      create_item a2.now a2.version a2.signature a2.url a2.length a2.minSys
        a2.notes ::
        ((itemsOf c.children).eraseP (matchesVersion a1.version)).take n := by
    rw [XElem.children_mk,
      itemsOf_mergeChildren (n + 1) _
        (tag_create_item a2.now a2.version a2.signature a2.url a2.length a2.minSys
          a2.notes) a2.version _,
      hi1, List.eraseP_cons_of_pos hmv12, List.take_succ_cons, List.take_take,
      Nat.min_self]
  refine ⟨root2, _, hrun, hch2, ?_, ?_⟩
  · simp only [XElem.children_mk] at hi2 ⊢
    rw [hi2]
    have hmv2 : matchesVersion v
        (create_item a2.now a2.version a2.signature a2.url a2.length a2.minSys
          a2.notes) = true := by
      rw [matchesVersion_create_item, hv2]
      exact beq_self_eq_true v
    rw [List.countP_cons_of_pos _ _ hmv2]
    have hle : (((itemsOf c.children).eraseP (matchesVersion a1.version)).take
        n).countP (matchesVersion v) ≤ 0 := by
      rw [← hcount0]
      exact List.Sublist.countP_le _ (List.take_sublist n _)
    omega
  · simp only [XElem.children_mk] at hi2 ⊢
    rw [hi2]
    rfl

theorem C2_same_version_replace_witness :
    (∃ root' c',
       runUpdates 10 (.ok (parse_appcast none))
         [⟨"n1", "1.0.0", "SIG_A", "u1", 1000, "14.0", none⟩,
          ⟨"n2", "1.0.0", "SIG_B", "u2", 2000, "14.0", none⟩] = .ok root' ∧
       findChild "channel" root' = some c' ∧
       (itemsOf c'.children).countP (matchesVersion "1.0.0") = 1 ∧
       (itemsOf c'.children).head? =
         some (create_item "n2" "1.0.0" "SIG_B" "u2" 2000 "14.0" none)) ∧
    matchesVersion "1.0"
      (create_item "now" "1.0.0" "sig" "url" 100 "14.0" none) =
      (itemVer (create_item "now" "1.0.0" "sig" "url" 100 "14.0" none) ==
        some "1.0") ∧
    matchesVersion "1.0"
      (create_item "now" "1.0.0" "sig" "url" 100 "14.0" none) = false := by
  have h := C2_same_version_replace (parse_appcast none)
    (XElem.mk "channel" [] none
      [XElem.mk "title" [] (some "Orbit Updates") [],
       XElem.mk "link" [] (some "https://github.com/thirteen37/Orbit") [],
       XElem.mk "description" [] (some "Most recent updates to Orbit") [],
       XElem.mk "language" [] (some "en") []])
    rfl "1.0.0" (by decide) 10 (by decide)
    ⟨"n1", "1.0.0", "SIG_A", "u1", 1000, "14.0", none⟩
    ⟨"n2", "1.0.0", "SIG_B", "u2", 2000, "14.0", none⟩ rfl rfl
  exact ⟨h.1, h.2.1 "1.0" (create_item "now" "1.0.0" "sig" "url" 100 "14.0" none),
    h.2.2⟩

/-- C10 counterexample: a feed already holding two items with stored version
"1.0.0", updated with that same version under retention 1, is written back
with only one item of that version — the duplicate does NOT survive, against
the claim's final assertion. -/
theorem C10_counterexample :
    (channelOfResult
        (update_appcast (some dupVersionDoc) "now" "1.0.0" "sig" "url" 5 "14.0"
          none 1)).map
      (fun c => (itemsOf c.children).countP (matchesVersion "1.0.0")) =
      some 1 := by
  rfl

/-- C10 (amended): the dedup scan removes at most one item (the first
match), non-matching items and items without an enclosure child always
survive it, and — provided the input feed's item count is within the
retention limit — a feed holding two or more items with the incoming
version is written back still holding a duplicate of it. -/
theorem C10_dedup_scan (v : String) (l : List XElem) :
    (itemsOf (removeFirstMatch v l) = (itemsOf l).eraseP (matchesVersion v) ∧
     (itemsOf l).length ≤ (itemsOf (removeFirstMatch v l)).length + 1) ∧
    ((itemsOf (removeFirstMatch v l)).countP (fun it => !(matchesVersion v it)) =
       (itemsOf l).countP (fun it => !(matchesVersion v it)) ∧
     (itemsOf (removeFirstMatch v l)).countP
         (fun it => (findChild "enclosure" it).isNone) =
       (itemsOf l).countP (fun it => (findChild "enclosure" it).isNone)) ∧
    (∀ (root c : XElem), findChild "channel" root = some c →
      ∀ N : Nat, (itemsOf c.children).length ≤ N →
        2 ≤ (itemsOf c.children).countP (matchesVersion v) →
        ∀ (now s u : String) (len : Int) (m : String) (rn : Option String),
          ∃ root' c',
            update_appcast (some root) now v s u len m rn N = .ok root' ∧
            findChild "channel" root' = some c' ∧
            2 ≤ (itemsOf c'.children).countP (matchesVersion v)) := by
  refine ⟨⟨itemsOf_removeFirstMatch v l, ?_⟩, ⟨?_, ?_⟩, ?_⟩
  · rw [itemsOf_removeFirstMatch]
    by_cases hex : ∃ x ∈ itemsOf l, matchesVersion v x = true
    · obtain ⟨x, hx, hpx⟩ := hex
      rw [List.length_eraseP_of_mem hx hpx]
      have hpos : 0 < (itemsOf l).length :=
        List.length_pos.mpr (List.ne_nil_of_mem hx)
      omega
    · rw [List.eraseP_of_forall_not (fun x hx hpx => hex ⟨x, hx, hpx⟩)]
      omega
  · rw [itemsOf_removeFirstMatch]
    refine countP_eraseP_disjoint _ _ ?_ _
    intro x hx
    simpa using hx
  · rw [itemsOf_removeFirstMatch]
    refine countP_eraseP_disjoint _ _ ?_ _
    intro x hx
    unfold matchesVersion
    cases h : findChild "enclosure" x with
    | none => rfl
    | some enc =>
        rw [h] at hx
        simp at hx
  · intro root c hc N hlen hdup now s u len m rn
    obtain ⟨root', hup, hch⟩ := update_appcast_channel root c hc now v s u len m
      rn N
    refine ⟨root', _, hup, hch, ?_⟩
    rw [XElem.children_mk,
      itemsOf_mergeChildren N _ (tag_create_item now v s u len m rn) v c.children]
    have hpos : 0 < (itemsOf c.children).countP (matchesVersion v) := by omega
    obtain ⟨x, hx, hpx⟩ := List.countP_pos_iff.mp hpos
    have herase : ((itemsOf c.children).eraseP (matchesVersion v)).length + 1 =
        (itemsOf c.children).length := by
      rw [List.length_eraseP_of_mem hx hpx]
      have : 0 < (itemsOf c.children).length :=
        List.length_pos.mpr (List.ne_nil_of_mem hx)
      omega
    have htake : (create_item now v s u len m rn ::
          (itemsOf c.children).eraseP (matchesVersion v)).take N =
        create_item now v s u len m rn ::
          (itemsOf c.children).eraseP (matchesVersion v) := by
      apply List.take_of_length_le
      rw [List.length_cons]
      omega
    rw [htake]
    have hmv : matchesVersion v (create_item now v s u len m rn) = true := by
      rw [matchesVersion_create_item]
      exact beq_self_eq_true v
    rw [List.countP_cons_of_pos _ _ hmv]
    have := countP_eraseP_of_mem (matchesVersion v) (itemsOf c.children) hpos
    omega

theorem C10_dedup_scan_witness :
    (itemsOf (removeFirstMatch "1.0.0"
        [XElem.mk "item" [] none [], XElem.mk "title" [] none []]) =
      (itemsOf [XElem.mk "item" [] none [], XElem.mk "title" [] none []]).eraseP
        (matchesVersion "1.0.0") ∧
     (itemsOf [XElem.mk "item" [] none [], XElem.mk "title" [] none []]).length ≤
      (itemsOf (removeFirstMatch "1.0.0"
        [XElem.mk "item" [] none [], XElem.mk "title" [] none []])).length + 1) ∧
    ((itemsOf (removeFirstMatch "1.0.0"
        [XElem.mk "item" [] none [], XElem.mk "title" [] none []])).countP
        (fun it => !(matchesVersion "1.0.0" it)) =
      (itemsOf [XElem.mk "item" [] none [], XElem.mk "title" [] none []]).countP
        (fun it => !(matchesVersion "1.0.0" it)) ∧
     (itemsOf (removeFirstMatch "1.0.0"
        [XElem.mk "item" [] none [], XElem.mk "title" [] none []])).countP
        (fun it => (findChild "enclosure" it).isNone) =
      (itemsOf [XElem.mk "item" [] none [], XElem.mk "title" [] none []]).countP
        (fun it => (findChild "enclosure" it).isNone)) ∧
    ∃ root' c',
      update_appcast (some dupVersionDoc) "now" "1.0.0" "sig" "url" 5 "14.0"
          none 2 = .ok root' ∧
      findChild "channel" root' = some c' ∧
      2 ≤ (itemsOf c'.children).countP (matchesVersion "1.0.0") := by
  have h := C10_dedup_scan "1.0.0"
    [XElem.mk "item" [] none [], XElem.mk "title" [] none []]
  exact ⟨h.1, h.2.1, h.2.2
    dupVersionDoc
    (XElem.mk "channel" [] none
      [XElem.mk "item" [] none
        [XElem.mk "enclosure" [(sparkleName "version", "1.0.0")] none []],
       XElem.mk "item" [] none
        [XElem.mk "enclosure" [(sparkleName "version", "1.0.0")] none []]])
    rfl 2 (by decide) (by decide) "now" "sig" "url" 5 "14.0" none⟩

end Orbit
